import Mathlib

/-!
Shallow embedding of the Tic Tac Toe game-state core from
`src/tic_tac_toe_frontend/src/components/tictactoe/GameBoard.vue`
(the identical script block also appears in `src/unnamed/part_000`,
lines 59-177; the two files differ only in presentation code).

Modelling choices:
* `type Cell = Player | empty-string` becomes `Option Player`, with `none`
  standing for the empty string.
* The board `Array(9)` becomes a total function `Fin 9 → Option Player`.
* The reactive `state` object becomes the `GameState` structure; the nested
  `scores` record is flattened into three counters. The three mutating
  handlers become pure state transformers.
* JavaScript indexing `state.board[index]` with an arbitrary integer index
  yields `undefined` when the index is out of range; `readCell` models this
  read with an `Option`, and `handleCellClick` models the resulting control
  flow: for an out-of-range index the guard `board[index] !== empty` is
  true (`undefined` is not the empty string), so the handler returns
  without mutating anything.
-/

namespace TicTacToe

/-- Embedding of `type Player = X | O` (GameBoard.vue line 4). -/
inductive Player where
  | X
  | O
deriving DecidableEq, Repr

/-- Embedding of `type Cell = Player | empty` (line 5); `none` is the empty cell. -/
abbrev Cell := Option Player

/-- A board is 9 cells, indexed 0-8 row-major. -/
abbrev Board := Fin 9 → Cell

/-- Result record of `calculateWinner`: `{ winner: Player | null; line: number[] }`. -/
structure WinResult where
  winner : Option Player
  line : List (Fin 9)
deriving DecidableEq, Repr

/-- The 8 fixed line triples of `calculateWinner` (lines 10-19), in source
order: rows, then columns, then diagonals. -/
def lines : List (Fin 9 × Fin 9 × Fin 9) :=
  [(0, 1, 2), (3, 4, 5), (6, 7, 8),
   (0, 3, 6), (1, 4, 7), (2, 5, 8),
   (0, 4, 8), (2, 4, 6)]

/-- Loop body of `calculateWinner` (lines 20-24): return at the first triple
whose three cells are equal and non-empty (truthiness of `squares[a]` is
non-emptiness); after the loop, `{ winner: null, line: [] }` (line 25). -/
def calcWinnerLoop (squares : Board) : List (Fin 9 × Fin 9 × Fin 9) → WinResult
  | [] => { winner := none, line := [] }
  | (a, b, c) :: rest =>
    if squares a ≠ none ∧ squares a = squares b ∧ squares a = squares c then
      { winner := squares a, line := [a, b, c] }
    else
      calcWinnerLoop squares rest

/-- Embedding of `calculateWinner` (lines 8-26). -/
def calculateWinner (squares : Board) : WinResult :=
  calcWinnerLoop squares lines

/-- Embedding of `isBoardFull` (lines 29-32): `squares.every(c => c !== empty)`. -/
def isBoardFull (squares : Board) : Bool :=
  (List.finRange 9).all fun i => decide (squares i ≠ none)

/-- The board `Array(9).fill(empty)` (line 35). -/
def emptyBoard : Board := fun _ => none

/-- Embedding of the reactive `state` object (lines 34-44). -/
structure GameState where
  board : Board
  xIsNext : Bool
  scoreX : Nat
  scoreO : Nat
  draws : Nat
  gameOver : Bool
  winningLine : List (Fin 9)
deriving DecidableEq

/-- Initial value of `state` (lines 34-44). -/
def initState : GameState :=
  { board := emptyBoard, xIsNext := true, scoreX := 0, scoreO := 0,
    draws := 0, gameOver := false, winningLine := [] }

/-- Embedding of the computed `currentPlayer` (line 46). -/
def currentPlayer (s : GameState) : Player :=
  if s.xIsNext then Player.X else Player.O

/-- Status values of the computed `result` (lines 48-58). -/
inductive Status where
  | ongoing
  | win
  | draw
deriving DecidableEq, Repr

/-- Status field of the computed `result` (lines 48-58): win when
`calculateWinner` reports a winner, else draw when the board is full,
else ongoing. -/
def resultStatus (b : Board) : Status :=
  match (calculateWinner b).winner with
  | some _ => Status.win
  | none => if isBoardFull b then Status.draw else Status.ongoing

/-- Post-guard body of `handleCellClick` (lines 81-96), applied to the board
obtained after writing the current player mark: evaluate `calculateWinner`,
then update `gameOver`, `winningLine`, `scores` and the turn exactly as the
source branches do. -/
def applyResult (s : GameState) (board2 : Board) : GameState :=
  match (calculateWinner board2).winner with
  | some w =>
      { s with
          board := board2, gameOver := true,
          winningLine := (calculateWinner board2).line,
          scoreX := if w = Player.X then s.scoreX + 1 else s.scoreX,
          scoreO := if w = Player.O then s.scoreO + 1 else s.scoreO }
  | none =>
      if isBoardFull board2 then
        { s with board := board2, gameOver := true, draws := s.draws + 1 }
      else
        { s with board := board2, xIsNext := !s.xIsNext }

/-- Embedding of `handleCellClick` (lines 77-97) for an in-range index:
the guard (line 78) returns unchanged state on an occupied cell or a
finished game; otherwise the mark is written (line 80) and the result
branches (lines 81-96) run. -/
def handleCellClickCore (s : GameState) (i : Fin 9) : GameState :=
  if s.board i ≠ none ∨ s.gameOver = true then s
  else applyResult s (Function.update s.board i (some (currentPlayer s)))

/-- JavaScript read `state.board[index]` at an arbitrary integer index:
the outer `none` models the `undefined` produced by an out-of-range read. -/
def readCell (b : Board) (index : Int) : Option Cell :=
  if h : 0 ≤ index ∧ index < 9 then some (b ⟨index.toNat, by omega⟩) else none

/-- Embedding of `handleCellClick` (lines 77-97) at an arbitrary integer
index. Out of range, `state.board[index]` is `undefined`, which is not the
empty string, so the guard at line 78 fires and the call is a no-op. -/
def handleCellClick (s : GameState) (index : Int) : GameState :=
  if h : 0 ≤ index ∧ index < 9 then handleCellClickCore s ⟨index.toNat, by omega⟩
  else s

/-- Embedding of `newRound` (lines 99-104). -/
def newRound (s : GameState) : GameState :=
  { s with
      board := emptyBoard,
      xIsNext := if !s.gameOver then s.xIsNext else true,
      gameOver := false,
      winningLine := [] }

/-- Embedding of `resetAll` (lines 106-114). -/
def resetAll (s : GameState) : GameState :=
  { s with
      board := emptyBoard, xIsNext := true, gameOver := false,
      winningLine := [], scoreX := 0, scoreO := 0, draws := 0 }

/-- Score counter of a given player, reading the flattened `scores` record. -/
def scoreOf (s : GameState) : Player → Nat
  | Player.X => s.scoreX
  | Player.O => s.scoreO

/-- Predicate for one line triple being satisfied on a board: all three
cells equal and non-empty (the loop condition at line 21). -/
def lineSat (squares : Board) (l : Fin 9 × Fin 9 × Fin 9) : Prop :=
  squares l.1 ≠ none ∧ squares l.1 = squares l.2.1 ∧ squares l.1 = squares l.2.2

instance (squares : Board) (l : Fin 9 × Fin 9 × Fin 9) : Decidable (lineSat squares l) := by
  unfold lineSat; infer_instance

/-- Number of cells on the board holding a given player mark. -/
def countPlayer (b : Board) (p : Player) : Nat :=
  ∑ i : Fin 9, if b i = some p then 1 else 0

/-- Number of non-empty cells on the board (the move count). -/
def moveCount (b : Board) : Nat :=
  ∑ i : Fin 9, if b i = none then 0 else 1

/-- States reachable from the initial state by any sequence of the three
exported operations, with arbitrary integer indices for moves. -/
inductive Reachable : GameState → Prop where
  | init : Reachable initState
  | move (s : GameState) (index : Int) : Reachable s → Reachable (handleCellClick s index)
  | round (s : GameState) : Reachable s → Reachable (newRound s)
  | reset (s : GameState) : Reachable s → Reachable (resetAll s)

/-- States reachable when `newRound` is only invoked in terminal states
(the turn-disciplined fragment of `Reachable`). -/
inductive ReachableT : GameState → Prop where
  | init : ReachableT initState
  | move (s : GameState) (index : Int) : ReachableT s → ReachableT (handleCellClick s index)
  | reset (s : GameState) : ReachableT s → ReachableT (resetAll s)
  | round (s : GameState) : ReachableT s → s.gameOver = true → ReachableT (newRound s)

/-- The player whose turn it is after n marks were placed: X first,
alternating. -/
def playerAt (n : Nat) : Player :=
  if n % 2 = 0 then Player.X else Player.O

/-- Boards reachable from the empty board by alternating legal play:
X moves first, every move goes to an empty cell, play stops at a terminal
(won or full) board. -/
inductive LegalBoard : Board → Prop where
  | empty : LegalBoard emptyBoard
  | move (b : Board) (i : Fin 9) : LegalBoard b → resultStatus b = Status.ongoing →
      b i = none → LegalBoard (Function.update b i (some (playerAt (moveCount b))))

/-- Test board with X occupying the whole first row, used as a concrete
input in witnesses. -/
def rowXBoard : Board := fun i => if i.val < 3 then some Player.X else none

/-- Test state in which X has just won through the top row (moves
X0, O4, X1, O5, X2), used as a concrete input in witnesses. -/
def wonState : GameState :=
  handleCellClick (handleCellClick (handleCellClick (handleCellClick
    (handleCellClick initState 0) 4) 1) 5) 2

/-- Consistency of the cached fields with the board, as the spec states it:
`gameOver` holds exactly when the board has a winner or is full, and
`winningLine` is non-empty exactly when the board has a winner, in which
case it lists one of the 8 fixed lines whose three cells carry the same
non-empty mark. -/
def CachedConsistent (s : GameState) : Prop :=
  (s.gameOver = true ↔ ((calculateWinner s.board).winner ≠ none ∨ isBoardFull s.board = true)) ∧
  (s.winningLine ≠ [] ↔ (calculateWinner s.board).winner ≠ none) ∧
  (s.winningLine ≠ [] →
    ∃ l ∈ lines, s.winningLine = [l.1, l.2.1, l.2.2] ∧ lineSat s.board l)

/- ## Helper lemmas about the winner computation -/

theorem calcWinnerLoop_of_forall_not (b : Board) (L : List (Fin 9 × Fin 9 × Fin 9))
    (h : ∀ l ∈ L, ¬ lineSat b l) :
    calcWinnerLoop b L = { winner := none, line := [] } := by
  induction L with
  | nil => rfl
  | cons l rest ih =>
    obtain ⟨a, bb, c⟩ := l
    have hna : ¬ (b a ≠ none ∧ b a = b bb ∧ b a = b c) := h (a, bb, c) (List.mem_cons_self _ _)
    rw [calcWinnerLoop, if_neg hna]
    exact ih fun l hl => h l (List.mem_cons_of_mem _ hl)

theorem calcWinnerLoop_win_mem (b : Board) (w : Player) (L : List (Fin 9 × Fin 9 × Fin 9))
    (h : (calcWinnerLoop b L).winner = some w) :
    ∃ l ∈ L, calcWinnerLoop b L = { winner := some w, line := [l.1, l.2.1, l.2.2] } ∧
      lineSat b l ∧ b l.1 = some w := by
  induction L with
  | nil => exact absurd h (by simp [calcWinnerLoop])
  | cons l rest ih =>
    obtain ⟨a, bb, c⟩ := l
    by_cases hsat : b a ≠ none ∧ b a = b bb ∧ b a = b c
    · have hloop : calcWinnerLoop b ((a, bb, c) :: rest) = { winner := b a, line := [a, bb, c] } := by
        rw [calcWinnerLoop, if_pos hsat]
      have hba : b a = some w := by
        have := h
        rw [hloop] at this
        exact this
      refine ⟨(a, bb, c), List.mem_cons_self _ _, ?_, hsat, hba⟩
      rw [hloop, hba]
    · have hloop : calcWinnerLoop b ((a, bb, c) :: rest) = calcWinnerLoop b rest := by
        rw [calcWinnerLoop, if_neg hsat]
      rw [hloop] at h ⊢
      obtain ⟨l, hl, heq, hs, hf⟩ := ih h
      exact ⟨l, List.mem_cons_of_mem _ hl, heq, hs, hf⟩

theorem calculateWinner_win_mem (b : Board) (w : Player)
    (h : (calculateWinner b).winner = some w) :
    ∃ l ∈ lines, calculateWinner b = { winner := some w, line := [l.1, l.2.1, l.2.2] } ∧
      lineSat b l ∧ b l.1 = some w :=
  calcWinnerLoop_win_mem b w lines h

theorem calcWinnerLoop_first (b : Board) (L : List (Fin 9 × Fin 9 × Fin 9)) :
    ∀ (k : Nat) (hk : k < L.length), lineSat b (L.get ⟨k, hk⟩) →
      (∀ (j : Nat) (hj : j < k), ¬ lineSat b (L.get ⟨j, Nat.lt_trans hj hk⟩)) →
      calcWinnerLoop b L =
        { winner := b (L.get ⟨k, hk⟩).1,
          line := [(L.get ⟨k, hk⟩).1, (L.get ⟨k, hk⟩).2.1, (L.get ⟨k, hk⟩).2.2] } := by
  induction L with
  | nil => intro k hk; exact absurd hk (Nat.not_lt_zero k)
  | cons l rest ih =>
    intro k hk hsat hmin
    obtain ⟨a, bb, c⟩ := l
    cases k with
    | zero =>
      have hsat0 : b a ≠ none ∧ b a = b bb ∧ b a = b c := hsat
      rw [calcWinnerLoop, if_pos hsat0]
      rfl
    | succ k =>
      have hna : ¬ (b a ≠ none ∧ b a = b bb ∧ b a = b c) :=
        hmin 0 (Nat.succ_pos k)
      rw [calcWinnerLoop, if_neg hna]
      have hk2 : k < rest.length := Nat.lt_of_succ_lt_succ hk
      exact ih k hk2 hsat fun j hj => hmin (j + 1) (Nat.succ_lt_succ hj)

theorem calcWinnerLoop_none_iff (b : Board) (L : List (Fin 9 × Fin 9 × Fin 9)) :
    (calcWinnerLoop b L).winner = none ↔ ∀ l ∈ L, ¬ lineSat b l := by
  induction L with
  | nil => simp [calcWinnerLoop]
  | cons l rest ih =>
    obtain ⟨a, bb, c⟩ := l
    by_cases hsat : b a ≠ none ∧ b a = b bb ∧ b a = b c
    · rw [calcWinnerLoop, if_pos hsat]
      simp only [List.mem_cons]
      constructor
      · intro h; exact absurd h hsat.1
      · intro h; exact absurd hsat (h (a, bb, c) (Or.inl rfl))
    · rw [calcWinnerLoop, if_neg hsat]
      simp only [List.mem_cons, ih]
      constructor
      · rintro h l (rfl | hl)
        · exact hsat
        · exact h l hl
      · intro h l hl; exact h l (Or.inr hl)

theorem calculateWinner_none_iff (b : Board) :
    (calculateWinner b).winner = none ↔ ∀ l ∈ lines, ¬ lineSat b l :=
  calcWinnerLoop_none_iff b lines

theorem resultStatus_char (b : Board) :
    (resultStatus b = Status.win ↔ (calculateWinner b).winner ≠ none) ∧
    (resultStatus b = Status.draw ↔ ((calculateWinner b).winner = none ∧ isBoardFull b = true)) ∧
    (resultStatus b = Status.ongoing ↔ ((calculateWinner b).winner = none ∧ isBoardFull b = false)) := by
  unfold resultStatus
  cases hw : (calculateWinner b).winner with
  | some w => simp
  | none => cases hfull : isBoardFull b <;> simp

/- ## Helper lemmas about the move handler -/

theorem handleCellClickCore_noop (s : GameState) (i : Fin 9)
    (h : s.board i ≠ none ∨ s.gameOver = true) :
    handleCellClickCore s i = s := by
  rw [handleCellClickCore, if_pos h]

theorem handleCellClickCore_valid (s : GameState) (i : Fin 9)
    (hemp : s.board i = none) (hgo : s.gameOver = false) :
    handleCellClickCore s i = applyResult s (Function.update s.board i (some (currentPlayer s))) := by
  rw [handleCellClickCore, if_neg]
  simp [hemp, hgo]

theorem applyResult_win (s : GameState) (b2 : Board) (w : Player)
    (hw : (calculateWinner b2).winner = some w) :
    applyResult s b2 =
      { s with
          board := b2, gameOver := true,
          winningLine := (calculateWinner b2).line,
          scoreX := if w = Player.X then s.scoreX + 1 else s.scoreX,
          scoreO := if w = Player.O then s.scoreO + 1 else s.scoreO } := by
  rw [applyResult, hw]

theorem applyResult_draw (s : GameState) (b2 : Board)
    (hw : (calculateWinner b2).winner = none) (hfull : isBoardFull b2 = true) :
    applyResult s b2 = { s with board := b2, gameOver := true, draws := s.draws + 1 } := by
  rw [applyResult, hw]
  simp [hfull]

theorem applyResult_ongoing (s : GameState) (b2 : Board)
    (hw : (calculateWinner b2).winner = none) (hfull : isBoardFull b2 = false) :
    applyResult s b2 = { s with board := b2, xIsNext := !s.xIsNext } := by
  rw [applyResult, hw]
  simp [hfull]

theorem handleCellClick_in_or_out (s : GameState) (index : Int) :
    handleCellClick s index = s ∨ ∃ i : Fin 9, handleCellClick s index = handleCellClickCore s i := by
  rw [handleCellClick]
  split
  · right; exact ⟨_, rfl⟩
  · left; rfl

theorem handleCellClickCore_cases (s : GameState) (i : Fin 9) :
    handleCellClickCore s i = s ∨
    (s.board i = none ∧ s.gameOver = false ∧
      handleCellClickCore s i = applyResult s (Function.update s.board i (some (currentPlayer s)))) := by
  by_cases hg : s.board i ≠ none ∨ s.gameOver = true
  · exact Or.inl (handleCellClickCore_noop s i hg)
  · push_neg at hg
    obtain ⟨hemp, hgo⟩ := hg
    have hgo2 : s.gameOver = false := by
      cases hcase : s.gameOver
      · rfl
      · exact absurd hcase hgo
    exact Or.inr ⟨hemp, hgo2, handleCellClickCore_valid s i hemp hgo2⟩

theorem handleCellClick_cases (s : GameState) (index : Int) :
    handleCellClick s index = s ∨
    (∃ i : Fin 9, s.board i = none ∧ s.gameOver = false ∧
      handleCellClick s index = applyResult s (Function.update s.board i (some (currentPlayer s)))) := by
  rcases handleCellClick_in_or_out s index with h | ⟨i, h⟩
  · exact Or.inl h
  · rcases handleCellClickCore_cases s i with hc | ⟨hemp, hgo, hc⟩
    · exact Or.inl (h.trans hc)
    · exact Or.inr ⟨i, hemp, hgo, h.trans hc⟩

/- ## Helper lemmas about mark counting -/

theorem countPlayer_update (b : Board) (i : Fin 9) (p q : Player) (h : b i = none) :
    countPlayer (Function.update b i (some p)) q
      = countPlayer b q + (if p = q then 1 else 0) := by
  unfold countPlayer
  rw [← Finset.add_sum_erase _ _ (Finset.mem_univ i),
      ← Finset.add_sum_erase _ (fun j => if b j = some q then 1 else 0) (Finset.mem_univ i)]
  have h1 : (if Function.update b i (some p) i = some q then 1 else 0)
      = (if p = q then 1 else 0) := by
    rw [Function.update_same]
    by_cases hpq : p = q <;> simp [hpq]
  have h2 : (if b i = some q then 1 else 0) = 0 := by
    rw [h]; simp
  have h3 : ∑ x ∈ Finset.univ.erase i, (if Function.update b i (some p) x = some q then 1 else 0)
      = ∑ x ∈ Finset.univ.erase i, (if b x = some q then 1 else 0) := by
    refine Finset.sum_congr rfl fun x hx => ?_
    rw [Function.update_noteq (Finset.mem_erase.1 hx).1]
  rw [h1, h2, h3]
  omega

theorem moveCount_update (b : Board) (i : Fin 9) (p : Player) (h : b i = none) :
    moveCount (Function.update b i (some p)) = moveCount b + 1 := by
  unfold moveCount
  rw [← Finset.add_sum_erase _ _ (Finset.mem_univ i),
      ← Finset.add_sum_erase _ (fun j => if b j = none then 0 else 1) (Finset.mem_univ i)]
  have h1 : (if Function.update b i (some p) i = none then 0 else 1) = 1 := by
    rw [Function.update_same]; simp
  have h2 : (if b i = none then 0 else 1) = 0 := by
    rw [h]; simp
  have h3 : ∑ x ∈ Finset.univ.erase i, (if Function.update b i (some p) x = none then 0 else 1)
      = ∑ x ∈ Finset.univ.erase i, (if b x = none then 0 else 1) := by
    refine Finset.sum_congr rfl fun x hx => ?_
    rw [Function.update_noteq (Finset.mem_erase.1 hx).1]
  rw [h1, h2, h3]
  omega

theorem countPlayer_ge_three (b : Board) (w : Player) (a bb c : Fin 9)
    (hab : a ≠ bb) (hac : a ≠ c) (hbc : bb ≠ c)
    (ha : b a = some w) (hb2 : b bb = some w) (hc : b c = some w) :
    3 ≤ countPlayer b w := by
  have hs : ∑ x ∈ ({a, bb, c} : Finset (Fin 9)), (if b x = some w then 1 else 0) = 3 := by
    rw [Finset.sum_insert (by simp [hab, hac]), Finset.sum_insert (by simp [hbc]),
        Finset.sum_singleton, ha, hb2, hc]
    simp
  calc 3 = ∑ x ∈ ({a, bb, c} : Finset (Fin 9)), (if b x = some w then 1 else 0) := hs.symm
    _ ≤ ∑ x ∈ Finset.univ, (if b x = some w then 1 else 0) :=
        Finset.sum_le_sum_of_subset (Finset.subset_univ _)
    _ = countPlayer b w := rfl

set_option maxRecDepth 4096 in
theorem lines_distinct :
    ∀ l ∈ lines, l.1 ≠ l.2.1 ∧ l.1 ≠ l.2.2 ∧ l.2.1 ≠ l.2.2 := by decide

theorem winner_needs_three (b : Board) (w : Player)
    (hw : (calculateWinner b).winner = some w) :
    3 ≤ countPlayer b w := by
  obtain ⟨l, hl, _, hsat, hfst⟩ := calculateWinner_win_mem b w hw
  obtain ⟨a, bb, c⟩ := l
  obtain ⟨hab, hac, hbc⟩ := lines_distinct (a, bb, c) hl
  obtain ⟨_, hb2, hc⟩ := hsat
  exact countPlayer_ge_three b w a bb c hab hac hbc hfst (hfst ▸ hb2.symm) (hfst ▸ hc.symm)

theorem legal_counts (b : Board) (hb : LegalBoard b) :
    countPlayer b Player.X = (moveCount b + 1) / 2 ∧
    countPlayer b Player.O = moveCount b / 2 := by
  induction hb with
  | empty => constructor <;> decide
  | move b i hb hst hemp ih =>
    obtain ⟨ihX, ihO⟩ := ih
    have hX := countPlayer_update b i (playerAt (moveCount b)) Player.X hemp
    have hO := countPlayer_update b i (playerAt (moveCount b)) Player.O hemp
    have hM := moveCount_update b i (playerAt (moveCount b)) hemp
    rw [hM, hX, hO]
    unfold playerAt
    by_cases hpar : moveCount b % 2 = 0
    · rw [if_pos hpar]
      have e1 : (if Player.X = Player.X then 1 else 0) = 1 := rfl
      have e2 : (if Player.X = Player.O then 1 else 0) = 0 := rfl
      rw [e1, e2]
      omega
    · rw [if_neg hpar]
      have e3 : (if Player.O = Player.X then 1 else 0) = 0 := rfl
      have e4 : (if Player.O = Player.O then 1 else 0) = 1 := rfl
      rw [e3, e4]
      omega

theorem resultStatus_empty : resultStatus emptyBoard = Status.ongoing := by decide

/- ## Claim theorems -/

/-- C2: applyMove on an occupied cell or in a terminal (gameOver) state is a
silent no-op: it raises no error (the handler is a total function) and the
resulting state equals the previous one in every component. -/
theorem claim2_applyMove_noop (s : GameState) (i : Fin 9)
    (h : s.board i ≠ none ∨ s.gameOver = true) :
    handleCellClickCore s i = s :=
  handleCellClickCore_noop s i h

/-- Witness for C2: clicking cell 0 twice from the initial state; the second
click hits an occupied cell and leaves the state unchanged. -/
theorem claim2_witness :
    (handleCellClickCore initState 0).board 0 ≠ none ∧
    handleCellClickCore (handleCellClickCore initState 0) 0 = handleCellClickCore initState 0 :=
  ⟨by decide, claim2_applyMove_noop (handleCellClickCore initState 0) 0 (Or.inl (by decide))⟩

/-- C10: for any integer index outside 0-8, applyMove is a no-op leaving the
whole state unchanged: the guard reads `state.board[index]`, which is
`undefined` (modelled as an out-of-range `readCell`, returning `none` rather
than `some none`, the empty mark), so the handler returns before any
mutation. -/
theorem claim10_out_of_range (s : GameState) (index : Int)
    (h : index < 0 ∨ 9 ≤ index) :
    readCell s.board index = none ∧
    readCell s.board index ≠ some (none : Cell) ∧
    handleCellClick s index = s := by
  have hrange : ¬ (0 ≤ index ∧ index < 9) := by omega
  refine ⟨?_, ?_, ?_⟩
  · rw [readCell, dif_neg hrange]
  · rw [readCell, dif_neg hrange]; simp
  · rw [handleCellClick, dif_neg hrange]

/-- Witness for C10: applyMove at index 9 on the initial state. -/
theorem claim10_witness :
    readCell initState.board 9 = none ∧
    readCell initState.board 9 ≠ some (none : Cell) ∧
    handleCellClick initState 9 = initState :=
  claim10_out_of_range initState 9 (Or.inr (by omega))

/-- C5: startNewRound clears the board and the derived win state and forces
status to ongoing; the active player resets to X exactly when the prior
state was terminal and is preserved otherwise; all three score counters are
unchanged. -/
theorem claim5_newRound_spec (s : GameState) :
    (newRound s).board = emptyBoard ∧
    (newRound s).gameOver = false ∧
    (newRound s).winningLine = [] ∧
    resultStatus (newRound s).board = Status.ongoing ∧
    (s.gameOver = true → (newRound s).xIsNext = true) ∧
    (s.gameOver = false → (newRound s).xIsNext = s.xIsNext) ∧
    (newRound s).scoreX = s.scoreX ∧
    (newRound s).scoreO = s.scoreO ∧
    (newRound s).draws = s.draws := by
  refine ⟨rfl, rfl, rfl, resultStatus_empty, ?_, ?_, rfl, rfl, rfl⟩
  · intro h; simp [newRound, h]
  · intro h; simp [newRound, h]

/-- Witness for C5: startNewRound after the X win of `wonState`. -/
theorem claim5_witness :
    (newRound wonState).board = emptyBoard ∧
    (newRound wonState).gameOver = false ∧
    (newRound wonState).winningLine = [] ∧
    (newRound wonState).xIsNext = true ∧
    (newRound wonState).scoreX = wonState.scoreX :=
  ⟨(claim5_newRound_spec wonState).1,
   (claim5_newRound_spec wonState).2.1,
   (claim5_newRound_spec wonState).2.2.1,
   (claim5_newRound_spec wonState).2.2.2.2.1 (by decide),
   (claim5_newRound_spec wonState).2.2.2.2.2.2.1⟩

/-- C8: resetAll followed by startNewRound yields the same observable state
as two resetAll calls: board empty, X to move, status ongoing, empty winning
line and all scores zero. -/
theorem claim8_reset_roundtrip (s : GameState) :
    newRound (resetAll s) = resetAll (resetAll s) ∧
    (newRound (resetAll s)).board = emptyBoard ∧
    (newRound (resetAll s)).xIsNext = true ∧
    resultStatus (newRound (resetAll s)).board = Status.ongoing ∧
    (newRound (resetAll s)).winningLine = [] ∧
    (newRound (resetAll s)).scoreX = 0 ∧
    (newRound (resetAll s)).scoreO = 0 ∧
    (newRound (resetAll s)).draws = 0 :=
  ⟨rfl, rfl, rfl, resultStatus_empty, rfl, rfl, rfl, rfl⟩

/-- Witness for C8 at the won test state. -/
theorem claim8_witness :
    newRound (resetAll wonState) = resetAll (resetAll wonState) :=
  (claim8_reset_roundtrip wonState).1

/-- C3: calculateWinner is a total function over boards; it scans the 8
fixed triples in the fixed order rows, columns, diagonals, returns at the
earliest-listed satisfied triple (three equal non-empty cells) that triple
and the mark in its first cell as winner, and returns no winner and an
empty line when no triple is satisfied. -/
theorem claim3_calculateWinner_first (b : Board) :
    lines = [(0, 1, 2), (3, 4, 5), (6, 7, 8),
             (0, 3, 6), (1, 4, 7), (2, 5, 8),
             (0, 4, 8), (2, 4, 6)] ∧
    ((∀ l ∈ lines, ¬ lineSat b l) → calculateWinner b = { winner := none, line := [] }) ∧
    (∀ (k : Nat) (hk : k < lines.length), lineSat b (lines.get ⟨k, hk⟩) →
      (∀ (j : Nat) (hj : j < k), ¬ lineSat b (lines.get ⟨j, Nat.lt_trans hj hk⟩)) →
      calculateWinner b =
        { winner := b (lines.get ⟨k, hk⟩).1,
          line := [(lines.get ⟨k, hk⟩).1, (lines.get ⟨k, hk⟩).2.1, (lines.get ⟨k, hk⟩).2.2] }) := by
  refine ⟨rfl, ?_, ?_⟩
  · exact calcWinnerLoop_of_forall_not b lines
  · exact calcWinnerLoop_first b lines

/-- Witness for C3: on the board with X across the top row, the first listed
triple (0,1,2) is satisfied and is returned together with winner X. -/
theorem claim3_witness :
    lineSat rowXBoard (lines.get ⟨0, by decide⟩) ∧
    calculateWinner rowXBoard =
      { winner := rowXBoard (lines.get ⟨0, by decide⟩).1,
        line := [(lines.get ⟨0, by decide⟩).1, (lines.get ⟨0, by decide⟩).2.1,
                 (lines.get ⟨0, by decide⟩).2.2] } := by
  refine ⟨by decide, (claim3_calculateWinner_first rowXBoard).2.2 0 (by decide) (by decide) ?_⟩
  intro j hj
  exact absurd hj (Nat.not_lt_zero j)

/-- C7: on every board reachable from the empty board by alternating legal
play (X first, moves on empty cells only, stopping at terminal boards),
calculateWinner reports no winner while fewer than 5 marks are placed. -/
theorem claim7_no_early_winner (b : Board) (hb : LegalBoard b)
    (hcount : moveCount b < 5) :
    (calculateWinner b).winner = none := by
  cases hw : (calculateWinner b).winner with
  | none => rfl
  | some w =>
    have h3 := winner_needs_three b w hw
    obtain ⟨hX, hO⟩ := legal_counts b hb
    cases w
    · omega
    · omega

/-- Witness for C7: the one-move board (X at cell 0) is legal, has one mark
and no winner. -/
theorem claim7_witness :
    (calculateWinner (Function.update emptyBoard 0 (some (playerAt (moveCount emptyBoard))))).winner
      = none :=
  claim7_no_early_winner _
    (LegalBoard.move emptyBoard 0 LegalBoard.empty (by decide) (by decide))
    (by rw [moveCount_update emptyBoard 0 _ (by decide)]; decide)

/-- C1: from a state with status ongoing (no winner, board not full, game
not over), applyMove on an empty cell writes the current player mark at that
index; then, if the re-evaluated board has a winner, gameOver is set, the
winning line is recorded and exactly the winning player score grows by 1;
else if the board is now full, gameOver is set and the draw counter grows by
1; otherwise the active player toggles and neither scores nor gameOver
change. -/
theorem claim1_applyMove_valid (s : GameState) (i : Fin 9) (b2 : Board)
    (hb2 : b2 = Function.update s.board i (some (currentPlayer s)))
    (hst : resultStatus s.board = Status.ongoing)
    (hgo : s.gameOver = false)
    (hemp : s.board i = none) :
    (handleCellClickCore s i).board = b2 ∧
    (∀ w, (calculateWinner b2).winner = some w →
      (handleCellClickCore s i).gameOver = true ∧
      (handleCellClickCore s i).winningLine = (calculateWinner b2).line ∧
      scoreOf (handleCellClickCore s i) w = scoreOf s w + 1 ∧
      (∀ p, p ≠ w → scoreOf (handleCellClickCore s i) p = scoreOf s p) ∧
      (handleCellClickCore s i).draws = s.draws) ∧
    ((calculateWinner b2).winner = none → isBoardFull b2 = true →
      (handleCellClickCore s i).gameOver = true ∧
      (handleCellClickCore s i).draws = s.draws + 1 ∧
      (handleCellClickCore s i).scoreX = s.scoreX ∧
      (handleCellClickCore s i).scoreO = s.scoreO) ∧
    ((calculateWinner b2).winner = none → isBoardFull b2 = false →
      (handleCellClickCore s i).xIsNext = (!s.xIsNext) ∧
      (handleCellClickCore s i).gameOver = s.gameOver ∧
      (handleCellClickCore s i).scoreX = s.scoreX ∧
      (handleCellClickCore s i).scoreO = s.scoreO ∧
      (handleCellClickCore s i).draws = s.draws) := by
  subst hb2
  rw [handleCellClickCore_valid s i hemp hgo]
  refine ⟨?_, ?_, ?_, ?_⟩
  · cases hw : (calculateWinner (Function.update s.board i (some (currentPlayer s)))).winner with
    | some w => rw [applyResult_win s _ w hw]
    | none =>
      cases hfull : isBoardFull (Function.update s.board i (some (currentPlayer s))) with
      | true => rw [applyResult_draw s _ hw hfull]
      | false => rw [applyResult_ongoing s _ hw hfull]
  · intro w hw
    rw [applyResult_win s _ w hw]
    refine ⟨rfl, rfl, ?_, ?_, rfl⟩
    · cases w <;> simp [scoreOf]
    · intro p hp
      cases p <;> cases w <;> simp_all [scoreOf]
  · intro hw hfull
    rw [applyResult_draw s _ hw hfull]
    exact ⟨rfl, rfl, rfl, rfl⟩
  · intro hw hfull
    rw [applyResult_ongoing s _ hw hfull]
    exact ⟨rfl, rfl, rfl, rfl, rfl⟩

/-- Witness for C1: the first move of the game, X into cell 0; the game
stays ongoing, so the player toggles. -/
theorem claim1_witness :
    resultStatus initState.board = Status.ongoing ∧
    initState.board 0 = none ∧
    (handleCellClickCore initState 0).board =
      Function.update initState.board 0 (some (currentPlayer initState)) ∧
    (handleCellClickCore initState 0).xIsNext = (!initState.xIsNext) := by
  have h := claim1_applyMove_valid initState 0
    (Function.update initState.board 0 (some (currentPlayer initState)))
    rfl (by decide) rfl rfl
  exact ⟨by decide, rfl, h.1, (h.2.2.2 (by decide) (by decide)).1⟩

/-- C6: the three score counters never decrease under applyMove or
startNewRound; a single applyMove changes at most one counter, by exactly 1,
and the total of the three counters grows by 1 exactly when that call turns
a running game into a finished one. -/
theorem claim6_scores_monotone (s : GameState) (index : Int) :
    s.scoreX ≤ (handleCellClick s index).scoreX ∧
    s.scoreO ≤ (handleCellClick s index).scoreO ∧
    s.draws ≤ (handleCellClick s index).draws ∧
    (newRound s).scoreX = s.scoreX ∧
    (newRound s).scoreO = s.scoreO ∧
    (newRound s).draws = s.draws ∧
    ((handleCellClick s index).scoreX = s.scoreX ∨ (handleCellClick s index).scoreX = s.scoreX + 1) ∧
    ((handleCellClick s index).scoreO = s.scoreO ∨ (handleCellClick s index).scoreO = s.scoreO + 1) ∧
    ((handleCellClick s index).draws = s.draws ∨ (handleCellClick s index).draws = s.draws + 1) ∧
    (handleCellClick s index).scoreX + (handleCellClick s index).scoreO + (handleCellClick s index).draws
      ≤ s.scoreX + s.scoreO + s.draws + 1 ∧
    ((handleCellClick s index).scoreX + (handleCellClick s index).scoreO + (handleCellClick s index).draws
        = s.scoreX + s.scoreO + s.draws + 1
      ↔ (s.gameOver = false ∧ (handleCellClick s index).gameOver = true)) := by
  have goal : ∀ t : GameState,
      (t = s ∨
        (s.gameOver = false ∧
          ((∃ w, t.gameOver = true ∧
              t.scoreX = (if w = Player.X then s.scoreX + 1 else s.scoreX) ∧
              t.scoreO = (if w = Player.O then s.scoreO + 1 else s.scoreO) ∧
              t.draws = s.draws) ∨
           (t.gameOver = true ∧ t.scoreX = s.scoreX ∧ t.scoreO = s.scoreO ∧
              t.draws = s.draws + 1) ∨
           (t.gameOver = s.gameOver ∧ t.scoreX = s.scoreX ∧ t.scoreO = s.scoreO ∧
              t.draws = s.draws)))) →
      s.scoreX ≤ t.scoreX ∧ s.scoreO ≤ t.scoreO ∧ s.draws ≤ t.draws ∧
      (t.scoreX = s.scoreX ∨ t.scoreX = s.scoreX + 1) ∧
      (t.scoreO = s.scoreO ∨ t.scoreO = s.scoreO + 1) ∧
      (t.draws = s.draws ∨ t.draws = s.draws + 1) ∧
      t.scoreX + t.scoreO + t.draws ≤ s.scoreX + s.scoreO + s.draws + 1 ∧
      (t.scoreX + t.scoreO + t.draws = s.scoreX + s.scoreO + s.draws + 1
        ↔ (s.gameOver = false ∧ t.gameOver = true)) := by
    rintro t (rfl | ⟨hgo, ⟨w, hg, hX, hO, hD⟩ | ⟨hg, hX, hO, hD⟩ | ⟨hg, hX, hO, hD⟩⟩)
    · refine ⟨le_refl _, le_refl _, le_refl _, Or.inl rfl, Or.inl rfl, Or.inl rfl, by omega, ?_⟩
      constructor
      · intro h; omega
      · rintro ⟨h1, h2⟩; rw [h1] at h2; exact absurd h2 (by simp)
    · cases w
      · refine ⟨?_, ?_, ?_, ?_, ?_, ?_, ?_, ?_⟩ <;> simp_all <;> omega
      · refine ⟨?_, ?_, ?_, ?_, ?_, ?_, ?_, ?_⟩ <;> simp_all <;> omega
    · refine ⟨?_, ?_, ?_, ?_, ?_, ?_, ?_, ?_⟩ <;> simp_all <;> omega
    · refine ⟨?_, ?_, ?_, ?_, ?_, ?_, ?_, ?_⟩ <;> simp_all <;> omega
  have hcase :
      handleCellClick s index = s ∨
        (s.gameOver = false ∧
          ((∃ w, (handleCellClick s index).gameOver = true ∧
              (handleCellClick s index).scoreX = (if w = Player.X then s.scoreX + 1 else s.scoreX) ∧
              (handleCellClick s index).scoreO = (if w = Player.O then s.scoreO + 1 else s.scoreO) ∧
              (handleCellClick s index).draws = s.draws) ∨
           ((handleCellClick s index).gameOver = true ∧
              (handleCellClick s index).scoreX = s.scoreX ∧
              (handleCellClick s index).scoreO = s.scoreO ∧
              (handleCellClick s index).draws = s.draws + 1) ∨
           ((handleCellClick s index).gameOver = s.gameOver ∧
              (handleCellClick s index).scoreX = s.scoreX ∧
              (handleCellClick s index).scoreO = s.scoreO ∧
              (handleCellClick s index).draws = s.draws))) := by
    rcases handleCellClick_cases s index with h | ⟨i, hemp, hgo, h⟩
    · exact Or.inl h
    · right
      refine ⟨hgo, ?_⟩
      cases hw : (calculateWinner (Function.update s.board i (some (currentPlayer s)))).winner with
      | some w =>
        left
        rw [h, applyResult_win s _ w hw]
        exact ⟨w, rfl, rfl, rfl, rfl⟩
      | none =>
        cases hfull : isBoardFull (Function.update s.board i (some (currentPlayer s))) with
        | true =>
          right; left
          rw [h, applyResult_draw s _ hw hfull]
          exact ⟨rfl, rfl, rfl, rfl⟩
        | false =>
          right; right
          rw [h, applyResult_ongoing s _ hw hfull]
          exact ⟨rfl, rfl, rfl, rfl⟩
  obtain ⟨m1, m2, m3, m4, m5, m6, m7, m8⟩ := goal (handleCellClick s index) hcase
  exact ⟨m1, m2, m3, rfl, rfl, rfl, m4, m5, m6, m7, m8⟩

/-- Witness for C6: the winning move of `wonState` raises exactly the X
counter by one. -/
theorem claim6_witness :
    wonState.scoreX = 1 ∧
    (handleCellClick wonState 3).scoreX = 1 ∧
    (newRound wonState).scoreX = wonState.scoreX :=
  ⟨by decide, by decide, (claim6_scores_monotone wonState 3).2.2.2.1⟩

/-- A state whose board is empty and whose cached fields are cleared is
consistent. -/
theorem cachedConsistent_cleared (t : GameState) (hb : t.board = emptyBoard)
    (hg : t.gameOver = false) (hl : t.winningLine = []) : CachedConsistent t := by
  have h1 : (calculateWinner emptyBoard).winner = none := by decide
  have h2 : isBoardFull emptyBoard = false := by decide
  refine ⟨?_, ?_, ?_⟩
  · rw [hg, hb, h1, h2]; simp
  · rw [hl, hb, h1]; simp
  · rw [hl]; intro hcon; exact absurd rfl hcon

/-- Every reachable state keeps the cached `gameOver` and `winningLine`
fields consistent with the board. -/
theorem reachable_cachedConsistent (s : GameState) (hs : Reachable s) :
    CachedConsistent s := by
  induction hs with
  | init => exact cachedConsistent_cleared _ rfl rfl rfl
  | move s index hr ih =>
    rcases handleCellClick_cases s index with h | ⟨i, hemp, hgo, h⟩
    · rwa [h]
    · obtain ⟨ih1, ih2, ih3⟩ := ih
      have hnot : ¬ ((calculateWinner s.board).winner ≠ none ∨ isBoardFull s.board = true) := by
        intro hcon
        have hcon2 := ih1.mpr hcon
        rw [hgo] at hcon2
        exact absurd hcon2 (by simp)
      push_neg at hnot
      obtain ⟨hwnone, hnfull⟩ := hnot
      have hline : s.winningLine = [] := by
        by_contra hn
        exact absurd (ih2.mp hn) (by simp [hwnone])
      rw [h]
      cases hw : (calculateWinner (Function.update s.board i (some (currentPlayer s)))).winner with
      | some w =>
        rw [applyResult_win s _ w hw]
        obtain ⟨l, hl, hceq, hsat, _⟩ := calculateWinner_win_mem _ w hw
        refine ⟨?_, ?_, ?_⟩
        · show true = true ↔ _
          rw [hw]
          simp
        · show (calculateWinner _).line ≠ [] ↔ _
          rw [hceq]
          simp
        · intro _
          refine ⟨l, hl, ?_, hsat⟩
          show (calculateWinner _).line = _
          rw [hceq]
      | none =>
        cases hfull : isBoardFull (Function.update s.board i (some (currentPlayer s))) with
        | true =>
          rw [applyResult_draw s _ hw hfull]
          refine ⟨?_, ?_, ?_⟩
          · show true = true ↔ _
            rw [hfull]
            simp
          · show s.winningLine ≠ [] ↔ _
            rw [hline, hw]
            simp
          · show s.winningLine ≠ [] → _
            rw [hline]
            intro hcon
            exact absurd rfl hcon
        | false =>
          rw [applyResult_ongoing s _ hw hfull]
          refine ⟨?_, ?_, ?_⟩
          · show s.gameOver = true ↔ _
            rw [hgo, hw, hfull]
            simp
          · show s.winningLine ≠ [] ↔ _
            rw [hline, hw]
            simp
          · show s.winningLine ≠ [] → _
            rw [hline]
            intro hcon
            exact absurd rfl hcon
  | round s hr ih => exact cachedConsistent_cleared _ rfl rfl rfl
  | reset s hr ih => exact cachedConsistent_cleared _ rfl rfl rfl

/-- C4: in every reachable state the cached fields stay consistent with the
board: gameOver holds exactly when the board has a winner or is full;
winningLine is non-empty exactly when the board has a winner, and then
names one of the 8 fixed lines with three equal non-empty cells; and the
derived status is exactly one of win, draw, ongoing, characterised purely
by the board, with gameOver equivalent to a non-ongoing status. -/
theorem claim4_cached_consistency (s : GameState) (hs : Reachable s) :
    CachedConsistent s ∧
    (resultStatus s.board = Status.win ↔ (calculateWinner s.board).winner ≠ none) ∧
    (resultStatus s.board = Status.draw ↔
      ((calculateWinner s.board).winner = none ∧ isBoardFull s.board = true)) ∧
    (resultStatus s.board = Status.ongoing ↔
      ((calculateWinner s.board).winner = none ∧ isBoardFull s.board = false)) ∧
    (s.gameOver = true ↔ resultStatus s.board ≠ Status.ongoing) := by
  have hc := reachable_cachedConsistent s hs
  have hch := resultStatus_char s.board
  refine ⟨hc, hch.1, hch.2.1, hch.2.2, ?_⟩
  rw [hc.1]
  constructor
  · intro h hst
    obtain ⟨hw, hf⟩ := hch.2.2.mp hst
    rcases h with h | h
    · exact h hw
    · rw [hf] at h
      exact absurd h (by simp)
  · intro h
    by_contra hcon
    push_neg at hcon
    obtain ⟨hw, hf⟩ := hcon
    have hf2 : isBoardFull s.board = false := by
      cases hcase : isBoardFull s.board
      · rfl
      · exact absurd hcase hf
    exact h (hch.2.2.mpr ⟨hw, hf2⟩)

/-- Witness for C4 at the initial state. -/
theorem claim4_witness : CachedConsistent initState :=
  (claim4_cached_consistency initState Reachable.init).1

/-- The helper equivalence between the derived current player and the
stored turn flag. -/
theorem currentPlayer_eq_X_iff (s : GameState) :
    currentPlayer s = Player.X ↔ s.xIsNext = true := by
  unfold currentPlayer
  cases s.xIsNext <;> decide

/-- Turn parity invariant of the turn-disciplined reachable states: while
the game is running, X is to move exactly when the number of placed marks
is even. -/
theorem reachableT_parity (s : GameState) (hs : ReachableT s) :
    s.gameOver = false → (s.xIsNext = true ↔ moveCount s.board % 2 = 0) := by
  induction hs with
  | init => intro _; decide
  | move s index hr ih =>
    rcases handleCellClick_cases s index with h | ⟨i, hemp, hgo, h⟩
    · rwa [h]
    · rw [h]
      cases hw : (calculateWinner (Function.update s.board i (some (currentPlayer s)))).winner with
      | some w =>
        rw [applyResult_win s _ w hw]
        intro hcon
        simp at hcon
      | none =>
        cases hfull : isBoardFull (Function.update s.board i (some (currentPlayer s))) with
        | true =>
          rw [applyResult_draw s _ hw hfull]
          intro hcon
          simp at hcon
        | false =>
          rw [applyResult_ongoing s _ hw hfull]
          intro _
          have hmc := moveCount_update s.board i (currentPlayer s) hemp
          have hp := ih hgo
          show (!s.xIsNext) = true ↔
            moveCount (Function.update s.board i (some (currentPlayer s))) % 2 = 0
          rw [hmc]
          cases hxn : s.xIsNext
          · rw [hxn] at hp
            simp at hp ⊢
            omega
          · rw [hxn] at hp
            simp at hp ⊢
            omega
  | reset s hr ih =>
    intro _
    have h0 : moveCount emptyBoard % 2 = 0 := by decide
    exact ⟨fun _ => h0, fun _ => rfl⟩
  | round s hr hterm ih =>
    intro _
    have hx : (newRound s).xIsNext = true := by
      show (if !s.gameOver then s.xIsNext else true) = true
      rw [hterm]
      rfl
    have h0 : moveCount emptyBoard % 2 = 0 := by decide
    rw [hx]
    exact ⟨fun _ => h0, fun _ => rfl⟩

/-- Counterexample for C9 as stated: starting a new round in the middle of
a running game (allowed by `Reachable`, which places no condition on
`startNewRound`) keeps the O turn while clearing the board, so a reachable
state has an even move count with O to move. -/
theorem claim9_counterexample :
    Reachable (newRound (handleCellClick initState 0)) ∧
    Even (moveCount (newRound (handleCellClick initState 0)).board) ∧
    currentPlayer (newRound (handleCellClick initState 0)) ≠ Player.X := by
  refine ⟨Reachable.round _ (Reachable.move _ 0 Reachable.init), ?_, ?_⟩
  · have h0 : moveCount (newRound (handleCellClick initState 0)).board = 0 := by decide
    rw [h0]
    exact even_zero
  · decide

/-- C9 as amended: in every state reachable with `startNewRound` applied
only in terminal states, while the game is not over the derived
currentPlayer is X exactly when the move count is even. (As stated the
claim fails: `newRound` from a running game preserves the turn over a
cleared board, and a terminal winning move leaves the winner as current
player with an odd count.) -/
theorem claim9_amended_parity (s : GameState) (hs : ReachableT s)
    (hgo : s.gameOver = false) :
    currentPlayer s = Player.X ↔ Even (moveCount s.board) := by
  rw [currentPlayer_eq_X_iff, Nat.even_iff]
  exact reachableT_parity s hs hgo

/-- Witness for the amended C9 at the initial state. -/
theorem claim9_witness :
    currentPlayer initState = Player.X ↔ Even (moveCount initState.board) :=
  claim9_amended_parity initState ReachableT.init rfl

end TicTacToe
